import Mathlib

/-!
# Verification of the prvw diff-to-intent pipeline (frontend state logic)

Shallow embedding of the TypeScript state logic of the prvw PR-review
viewer: the data model (`src/types.ts`), the epoch-guarded PR-diff and
analysis streams (`usePrDiff`, `useAnalysis`), the monolithic `App.tsx`
handlers, the group-filtering selector (`useGroupFiltering`), the
auto-run guard (`useAutoRunAnalysis`), and a spec-modelled
coverage-and-uniqueness validator for the analysis orchestrator.
-/

namespace Prvw

/-! ## Data model (src/types.ts) -/

/-- `DiffLine.kind` enumeration from src/types.ts. -/
inductive LineKind
  | add
  | remove
  | context
deriving DecidableEq, Repr

/-- One physical diff line (src/types.ts `DiffLine`). -/
structure DiffLine where
  kind : LineKind
  oldLine : Option Nat
  newLine : Option Nat
  text : String
deriving DecidableEq, Repr

/-- A contiguous change region in one file (src/types.ts `Hunk`). -/
structure Hunk where
  id : String
  filePath : String
  header : String
  oldStart : Nat
  oldLines : Nat
  newStart : Nat
  newLines : Nat
  lines : List DiffLine
deriving DecidableEq, Repr

/-- A PR list entry (src/types.ts `PrListItem`); author flattened to its
`login`, enum-like strings kept as strings. -/
structure PrListItem where
  number : Nat
  title : String
  url : String
  updatedAt : String
  author : Option String
  headRefName : Option String
  baseRefName : Option String
  reviewDecision : Option String
  body : Option String
deriving DecidableEq, Repr

/-- A reviewer-facing intent group (src/types.ts `IntentGroup`); the
`category` and `risk` enumerations are kept as strings. -/
structure IntentGroup where
  id : String
  title : String
  category : String
  rationale : String
  risk : String
  hunkIds : List String
  reviewerChecklist : List String
  suggestedTests : List String
deriving DecidableEq, Repr

/-- Full analysis output for one hunk set (src/types.ts `AnalysisResult`). -/
structure AnalysisResult where
  version : Nat
  overallSummary : String
  groups : List IntentGroup
  unassignedHunkIds : List String
  nonSubstantiveHunkIds : List String
  questions : List String
deriving DecidableEq, Repr

/-- Engine response for a full analysis (src/types.ts `AnalysisResponse`). -/
structure AnalysisResponse where
  result : AnalysisResult
  codexLog : String
  fromCache : Bool
deriving DecidableEq, Repr

/-- Engine response for a refine call (src/types.ts `RefineResponse`). -/
structure RefineResponse where
  subGroups : List IntentGroup
  codexLog : String
  fromCache : Bool
deriving DecidableEq, Repr

/-! ## Refine splice (useAnalysis.refineGroup, functional setAnalysis update)

The success path of `refineGroup` replaces the refined group with its
returned sub-groups inside the previous `AnalysisResult`:

```
setAnalysis((prev) => {
  if (!prev) return prev;
  const newGroups: IntentGroup[] = [];
  for (const g of prev.groups) {
    if (g.id === group.id) newGroups.push(...res.subGroups);
    else newGroups.push(g);
  }
  return { ...prev, groups: newGroups };
});
```
-/

/-- The loop body of `refineGroup`: each group whose id equals the refined
group's id is replaced by the sub-group list, all others are kept. -/
def spliceGroups (groupId : String) (subGroups : List IntentGroup) :
    List IntentGroup → List IntentGroup
  | [] => []
  | g :: gs =>
      if g.id = groupId then subGroups ++ spliceGroups groupId subGroups gs
      else g :: spliceGroups groupId subGroups gs

/-- The `setAnalysis` updater of `refineGroup` applied to the previous
analysis state (`prev`): spread of `prev` with the spliced group list. -/
def refineApply (group : IntentGroup) (res : RefineResponse) :
    Option AnalysisResult → Option AnalysisResult
  | none => none
  | some prev => some { prev with groups := spliceGroups group.id res.subGroups prev.groups }

theorem spliceGroups_append (groupId : String) (subGroups : List IntentGroup)
    (l₁ l₂ : List IntentGroup) :
    spliceGroups groupId subGroups (l₁ ++ l₂) =
      spliceGroups groupId subGroups l₁ ++ spliceGroups groupId subGroups l₂ := by
  induction l₁ with
  | nil => rfl
  | cons g gs ih =>
      by_cases h : g.id = groupId <;> simp [spliceGroups, h, ih]

theorem spliceGroups_of_no_match (groupId : String) (subGroups : List IntentGroup)
    (l : List IntentGroup) (h : ∀ g ∈ l, g.id ≠ groupId) :
    spliceGroups groupId subGroups l = l := by
  induction l with
  | nil => rfl
  | cons g gs ih =>
      have hg : g.id ≠ groupId := h g (by simp)
      have hrest : ∀ g' ∈ gs, g'.id ≠ groupId := fun g' hg' => h g' (by simp [hg'])
      simp [spliceGroups, hg, ih hrest]

/-! ## Epoch-guarded streams (the current hook architecture)

`usePrDiff` keeps `selectedPr`/`hunks` plus a `requestIdRef` counter;
`useAnalysis` keeps `analysis`/`codexLog`/`fromCache` plus its own
counter; both share the injected `setError`/`setLoading`.  The combined
React state is one record; each `async` function is embedded as its
synchronous start segment plus resumption events that carry the epoch
captured at start (`const id = ++requestIdRef.current`), exactly as the
single-threaded event loop interleaves them. -/

/-- Combined state of the PR-diff stream (`usePrDiff`), the analysis
stream (`useAnalysis`) and the shared `error`/`loading` slots. -/
structure AppState where
  prRequestId : Nat
  selectedPr : Option PrListItem
  hunks : List Hunk
  anaRequestId : Nat
  analysis : Option AnalysisResult
  codexLog : String
  fromCache : Bool
  error : Option String
  loading : Option String
deriving DecidableEq, Repr

/-- Empty-input error message of `runAnalysis`. -/
def emptyInputMsg : String := "No hunks to analyze. Select a PR first."

/-- Loading message of `selectPr`. -/
def fetchingDiffMsg : String := "Fetching diff..."

/-- Loading message of `runAnalysis`, depending on the `force` flag. -/
def analysisLoadingMsg (force : Bool) : String :=
  if force then "Re-running intent analysis with Codex (bypassing cache)..."
  else "Running intent analysis with Codex... (this may take a minute)"

/-- The engine invocation issued by `runAnalysis` (the `analyzeIntents`
call of useCodexApi): the hunk set serialized to the backend plus the
force flag. -/
structure EngineCall where
  hunks : List Hunk
  force : Bool
deriving DecidableEq, Repr

/-- Synchronous prefix of `usePrDiff.selectPr`: captures the new epoch
(`++requestIdRef.current`), clears the error, sets the selection and the
loading message.  The fetch/parse results arrive later as events. -/
def selectPrStart (pr : PrListItem) (s : AppState) : AppState :=
  { s with
    prRequestId := s.prRequestId + 1
    error := none
    selectedPr := some pr
    loading := some fetchingDiffMsg }

/-- `usePrDiff.clearSelection`: bumps the epoch and drops selection and
hunks. -/
def clearSelection (s : AppState) : AppState :=
  { s with
    prRequestId := s.prRequestId + 1
    selectedPr := none
    hunks := [] }

/-- Resumption of `selectPr` at the first `await` (`get_pr_diff`): on a
rejection the guarded catch records the error and clears the hunks, with
the guarded `finally` clearing the loading message; on success the code
only forwards the diff text into the `parse_diff` call, touching no
state.  A stale epoch leaves the state untouched on every path. -/
def prFetchDone (id : Nat) (out : Except String String) (s : AppState) : AppState :=
  match out with
  | .ok _diff => s
  | .error e =>
      if id = s.prRequestId then
        { s with error := some e, hunks := [], loading := none }
      else s

/-- Resumption of `selectPr` at the second `await` (`parse_diff`): the
guard is re-checked; on success the parsed hunks are applied and the
guarded `finally` clears loading; on rejection the guarded catch records
the error and empties the hunks.  A stale epoch changes nothing. -/
def prParseDone (id : Nat) (out : Except String (List Hunk)) (s : AppState) : AppState :=
  if id = s.prRequestId then
    match out with
    | .ok hs => { s with hunks := hs, loading := none }
    | .error e => { s with error := some e, hunks := [], loading := none }
  else s

/-- Synchronous prefix of `useAnalysis.runAnalysis`: captures the new
epoch, resets error/log/fromCache, and either fails early on an empty
hunk list (no engine call) or sets the loading message and issues the
engine call. -/
def runAnalysisStart (force : Bool) (s : AppState) : AppState × Option EngineCall :=
  let base := { s with
    anaRequestId := s.anaRequestId + 1
    error := none
    codexLog := ""
    fromCache := false }
  if s.hunks = [] then
    ({ base with error := some emptyInputMsg }, none)
  else
    ({ base with loading := some (analysisLoadingMsg force) }, some ⟨s.hunks, force⟩)

/-- Resumption of `runAnalysis` when the `analyzeIntents` promise
settles: on fulfilment the guarded code applies result/log/fromCache; on
rejection the guarded catch records the error; the guarded `finally`
clears loading.  A stale epoch leaves the state untouched. -/
def anaDone (id : Nat) (out : Except String AnalysisResponse) (s : AppState) : AppState :=
  if id = s.anaRequestId then
    match out with
    | .ok res =>
        { s with
          analysis := some res.result
          codexLog := res.codexLog
          fromCache := res.fromCache
          loading := none }
    | .error e => { s with error := some e, loading := none }
  else s

instance {α β : Type} [DecidableEq α] [DecidableEq β] : DecidableEq (Except α β) := fun x y =>
  match x, y with
  | .ok a, .ok b => if h : a = b then isTrue (by rw [h]) else isFalse (by simp [h])
  | .ok _, .error _ => isFalse (by simp)
  | .error _, .ok _ => isFalse (by simp)
  | .error a, .error b => if h : a = b then isTrue (by rw [h]) else isFalse (by simp [h])

/-- One event of the single-threaded event loop acting on `AppState`:
the synchronous start segments of `selectPr` / `clearSelection` /
`runAnalysis` and the resumption events of their awaited promises. -/
inductive AppOp
  | prStart (pr : PrListItem)
  | prClear
  | prFetch (id : Nat) (out : Except String String)
  | prParse (id : Nat) (out : Except String (List Hunk))
  | anaStart (force : Bool)
  | anaFinish (id : Nat) (out : Except String AnalysisResponse)
deriving DecidableEq, Repr

/-- Interpretation of one event. -/
def applyOp (op : AppOp) (s : AppState) : AppState :=
  match op with
  | .prStart pr => selectPrStart pr s
  | .prClear => clearSelection s
  | .prFetch id out => prFetchDone id out s
  | .prParse id out => prParseDone id out s
  | .anaStart force => (runAnalysisStart force s).1
  | .anaFinish id out => anaDone id out s

/-- Interpretation of an event sequence, oldest first. -/
def applyOps (ops : List AppOp) (s : AppState) : AppState :=
  ops.foldl (fun st op => applyOp op st) s

/-- Events that supersede the in-flight PR-diff operation: a new
`selectPr` call or `clearSelection` (both bump `requestIdRef`). -/
def supersedesPr : AppOp → Bool
  | .prStart _ => true
  | .prClear => true
  | _ => false

theorem prRequestId_mono (op : AppOp) (s : AppState) :
    s.prRequestId ≤ (applyOp op s).prRequestId := by
  cases op with
  | prStart pr => simp [applyOp, selectPrStart]
  | prClear => simp [applyOp, clearSelection]
  | prFetch id out =>
      cases out with
      | ok d => simp [applyOp, prFetchDone]
      | error e =>
          simp only [applyOp, prFetchDone]
          split <;> simp
  | prParse id out =>
      simp only [applyOp, prParseDone]
      split
      · cases out <;> simp
      · simp
  | anaStart force =>
      simp only [applyOp, runAnalysisStart]
      split <;> simp
  | anaFinish id out =>
      simp only [applyOp, anaDone]
      split
      · cases out <;> simp
      · simp

theorem prRequestId_strict_of_supersedes (op : AppOp) (s : AppState)
    (h : supersedesPr op = true) :
    s.prRequestId < (applyOp op s).prRequestId := by
  cases op with
  | prStart pr => simp [applyOp, selectPrStart]
  | prClear => simp [applyOp, clearSelection]
  | prFetch id out => simp [supersedesPr] at h
  | prParse id out => simp [supersedesPr] at h
  | anaStart force => simp [supersedesPr] at h
  | anaFinish id out => simp [supersedesPr] at h

theorem prRequestId_mono_ops (ops : List AppOp) (s : AppState) :
    s.prRequestId ≤ (applyOps ops s).prRequestId := by
  induction ops generalizing s with
  | nil => simp [applyOps]
  | cons op rest ih =>
      calc s.prRequestId ≤ (applyOp op s).prRequestId := prRequestId_mono op s
        _ ≤ (applyOps rest (applyOp op s)).prRequestId := ih (applyOp op s)
        _ = (applyOps (op :: rest) s).prRequestId := by simp [applyOps, List.foldl_cons]

theorem prRequestId_strict_ops (ops : List AppOp) (s : AppState)
    (h : ∃ op ∈ ops, supersedesPr op = true) :
    s.prRequestId < (applyOps ops s).prRequestId := by
  induction ops generalizing s with
  | nil => simp at h
  | cons op rest ih =>
      rcases h with ⟨op', hmem, hsup⟩
      rcases List.mem_cons.mp hmem with heq | hrest
      · subst heq
        have h1 : s.prRequestId < (applyOp op' s).prRequestId :=
          prRequestId_strict_of_supersedes op' s hsup
        have h2 : (applyOp op' s).prRequestId ≤
            (applyOps rest (applyOp op' s)).prRequestId :=
          prRequestId_mono_ops rest (applyOp op' s)
        have : s.prRequestId < (applyOps rest (applyOp op' s)).prRequestId :=
          lt_of_lt_of_le h1 h2
        simpa [applyOps, List.foldl_cons] using this
      · have h1 : s.prRequestId ≤ (applyOp op s).prRequestId := prRequestId_mono op s
        have h2 : (applyOp op s).prRequestId <
            (applyOps rest (applyOp op s)).prRequestId :=
          ih (applyOp op s) ⟨op', hrest, hsup⟩
        have : s.prRequestId < (applyOps rest (applyOp op s)).prRequestId :=
          lt_of_le_of_lt h1 h2
        simpa [applyOps, List.foldl_cons] using this

theorem prFetchDone_stale (id : Nat) (out : Except String String) (s : AppState)
    (h : id ≠ s.prRequestId) : prFetchDone id out s = s := by
  cases out <;> simp [prFetchDone, h]

theorem prParseDone_stale (id : Nat) (out : Except String (List Hunk)) (s : AppState)
    (h : id ≠ s.prRequestId) : prParseDone id out s = s := by
  simp [prParseDone, h]

theorem anaDone_stale (id : Nat) (out : Except String AnalysisResponse) (s : AppState)
    (h : id ≠ s.anaRequestId) : anaDone id out s = s := by
  simp [anaDone, h]

/-- A PR-diff stream state with nothing selected and both epochs at 0. -/
def sampleState : AppState :=
  { prRequestId := 0
    selectedPr := none
    hunks := []
    anaRequestId := 0
    analysis := none
    codexLog := ""
    fromCache := false
    error := none
    loading := none }

/-- A concrete PR list entry. -/
def samplePr : PrListItem :=
  { number := 1
    title := "Add endpoint"
    url := "https://example.invalid/pr/1"
    updatedAt := "2024-01-01T00:00:00Z"
    author := some "alice"
    headRefName := some "feature"
    baseRefName := some "main"
    reviewDecision := none
    body := none }

/-- A concrete one-line hunk. -/
def sampleHunk : Hunk :=
  { id := "H1"
    filePath := "src/a.ts"
    header := "@@ -1,1 +1,1 @@"
    oldStart := 1
    oldLines := 1
    newStart := 1
    newLines := 1
    lines := [{ kind := .context, oldLine := some 1, newLine := some 1, text := "x" }] }

/-- C1: whenever `selectPr` is called for PR A and a superseding event
(another `selectPr` or `clearSelection`) occurs before A's asynchronous
fetch/parse resolves, A's resolutions are silently discarded: they leave
the shared state (selectedPr, hunks, error, loading) exactly as the
newest operations left it. -/
theorem selectPr_stale_result_discarded (s0 : AppState) (prA : PrListItem)
    (mid : List AppOp) (fo : Except String String) (po : Except String (List Hunk))
    (hsup : ∃ op ∈ mid, supersedesPr op = true) :
    prFetchDone (s0.prRequestId + 1) fo (applyOps mid (selectPrStart prA s0)) =
      applyOps mid (selectPrStart prA s0) ∧
    prParseDone (s0.prRequestId + 1) po (applyOps mid (selectPrStart prA s0)) =
      applyOps mid (selectPrStart prA s0) := by
  have hlt : (selectPrStart prA s0).prRequestId <
      (applyOps mid (selectPrStart prA s0)).prRequestId :=
    prRequestId_strict_ops mid _ hsup
  have hid : (selectPrStart prA s0).prRequestId = s0.prRequestId + 1 := rfl
  have hne : s0.prRequestId + 1 ≠ (applyOps mid (selectPrStart prA s0)).prRequestId := by
    omega
  exact ⟨prFetchDone_stale _ _ _ hne, prParseDone_stale _ _ _ hne⟩

theorem selectPr_stale_result_discarded_witness :
    prFetchDone (sampleState.prRequestId + 1) (Except.ok "diff text")
        (applyOps [AppOp.prClear] (selectPrStart samplePr sampleState)) =
      applyOps [AppOp.prClear] (selectPrStart samplePr sampleState) ∧
    prParseDone (sampleState.prRequestId + 1) (Except.ok [sampleHunk])
        (applyOps [AppOp.prClear] (selectPrStart samplePr sampleState)) =
      applyOps [AppOp.prClear] (selectPrStart samplePr sampleState) :=
  selectPr_stale_result_discarded sampleState samplePr [AppOp.prClear]
    (Except.ok "diff text") (Except.ok [sampleHunk])
    ⟨AppOp.prClear, by simp, rfl⟩

/-- C2: if `runAnalysis` starts operation A and then operation B before
A's engine call resolves, then both engine calls are issued with the
current hunk set, A's late resolution is discarded, and B's resolution
determines the analysis/codexLog/fromCache state. -/
theorem runAnalysis_epoch_last_wins (s0 : AppState) (f1 f2 : Bool)
    (outA : Except String AnalysisResponse) (resB : AnalysisResponse)
    (h : s0.hunks ≠ []) :
    (runAnalysisStart f1 s0).2 = some ⟨s0.hunks, f1⟩ ∧
    (runAnalysisStart f2 (runAnalysisStart f1 s0).1).2 = some ⟨s0.hunks, f2⟩ ∧
    anaDone (s0.anaRequestId + 1) outA
        (runAnalysisStart f2 (runAnalysisStart f1 s0).1).1 =
      (runAnalysisStart f2 (runAnalysisStart f1 s0).1).1 ∧
    (anaDone (s0.anaRequestId + 2) (Except.ok resB)
        (runAnalysisStart f2 (runAnalysisStart f1 s0).1).1).analysis = some resB.result ∧
    (anaDone (s0.anaRequestId + 2) (Except.ok resB)
        (runAnalysisStart f2 (runAnalysisStart f1 s0).1).1).codexLog = resB.codexLog ∧
    (anaDone (s0.anaRequestId + 2) (Except.ok resB)
        (runAnalysisStart f2 (runAnalysisStart f1 s0).1).1).fromCache = resB.fromCache := by
  refine ⟨?_, ?_, ?_, ?_, ?_, ?_⟩ <;>
    simp [runAnalysisStart, if_neg h, anaDone]

theorem runAnalysis_epoch_last_wins_witness :
    (runAnalysisStart false { sampleState with hunks := [sampleHunk] }).2 =
      some ⟨[sampleHunk], false⟩ ∧
    (runAnalysisStart true
        (runAnalysisStart false { sampleState with hunks := [sampleHunk] }).1).2 =
      some ⟨[sampleHunk], true⟩ ∧
    anaDone ({ sampleState with hunks := [sampleHunk] } : AppState).anaRequestId.succ
        (Except.error "engine exited non-zero")
        (runAnalysisStart true
          (runAnalysisStart false { sampleState with hunks := [sampleHunk] }).1).1 =
      (runAnalysisStart true
        (runAnalysisStart false { sampleState with hunks := [sampleHunk] }).1).1 ∧
    (anaDone (({ sampleState with hunks := [sampleHunk] } : AppState).anaRequestId + 2)
        (Except.ok ⟨{ version := 1, overallSummary := "", groups := [],
                      unassignedHunkIds := ["H1"], nonSubstantiveHunkIds := [],
                      questions := [] }, "log", false⟩)
        (runAnalysisStart true
          (runAnalysisStart false { sampleState with hunks := [sampleHunk] }).1).1).analysis =
      some { version := 1, overallSummary := "", groups := [],
             unassignedHunkIds := ["H1"], nonSubstantiveHunkIds := [],
             questions := [] } ∧
    (anaDone (({ sampleState with hunks := [sampleHunk] } : AppState).anaRequestId + 2)
        (Except.ok ⟨{ version := 1, overallSummary := "", groups := [],
                      unassignedHunkIds := ["H1"], nonSubstantiveHunkIds := [],
                      questions := [] }, "log", false⟩)
        (runAnalysisStart true
          (runAnalysisStart false { sampleState with hunks := [sampleHunk] }).1).1).codexLog =
      "log" ∧
    (anaDone (({ sampleState with hunks := [sampleHunk] } : AppState).anaRequestId + 2)
        (Except.ok ⟨{ version := 1, overallSummary := "", groups := [],
                      unassignedHunkIds := ["H1"], nonSubstantiveHunkIds := [],
                      questions := [] }, "log", false⟩)
        (runAnalysisStart true
          (runAnalysisStart false { sampleState with hunks := [sampleHunk] }).1).1).fromCache =
      false :=
  runAnalysis_epoch_last_wins { sampleState with hunks := [sampleHunk] } false true
    (Except.error "engine exited non-zero")
    ⟨{ version := 1, overallSummary := "", groups := [],
       unassignedHunkIds := ["H1"], nonSubstantiveHunkIds := [],
       questions := [] }, "log", false⟩
    (by simp)

/-- C6: `runAnalysis` on an empty hunk list fails early: the empty-input
error is set, no engine call is issued, and the held analysis, the hunks
and the loading indicator are untouched. -/
theorem runAnalysis_empty_input (force : Bool) (s : AppState) (h : s.hunks = []) :
    (runAnalysisStart force s).2 = none ∧
    (runAnalysisStart force s).1.analysis = s.analysis ∧
    (runAnalysisStart force s).1.hunks = s.hunks ∧
    (runAnalysisStart force s).1.loading = s.loading ∧
    (runAnalysisStart force s).1.error = some emptyInputMsg := by
  simp [runAnalysisStart, h]

theorem runAnalysis_empty_input_witness :
    (runAnalysisStart false sampleState).2 = none ∧
    (runAnalysisStart false sampleState).1.analysis = sampleState.analysis ∧
    (runAnalysisStart false sampleState).1.hunks = sampleState.hunks ∧
    (runAnalysisStart false sampleState).1.loading = sampleState.loading ∧
    (runAnalysisStart false sampleState).1.error = some emptyInputMsg :=
  runAnalysis_empty_input false sampleState rfl

/-- C7: when the engine call of `runAnalysis` rejects, only the error
message is set and the loading indicator cleared: the hunks of the diff
stream, the PR selection and the previously displayed analysis are left
unchanged. -/
theorem runAnalysis_failure_frame (force : Bool) (s : AppState) (e : String)
    (h : s.hunks ≠ []) :
    (anaDone (s.anaRequestId + 1) (Except.error e) (runAnalysisStart force s).1).hunks =
      s.hunks ∧
    (anaDone (s.anaRequestId + 1) (Except.error e) (runAnalysisStart force s).1).analysis =
      s.analysis ∧
    (anaDone (s.anaRequestId + 1) (Except.error e) (runAnalysisStart force s).1).selectedPr =
      s.selectedPr ∧
    (anaDone (s.anaRequestId + 1) (Except.error e) (runAnalysisStart force s).1).error =
      some e ∧
    (anaDone (s.anaRequestId + 1) (Except.error e) (runAnalysisStart force s).1).loading =
      none := by
  refine ⟨?_, ?_, ?_, ?_, ?_⟩ <;> simp [runAnalysisStart, if_neg h, anaDone]

/-- A held analysis paired with one hunk, for concrete instantiations. -/
def heldAnalysis : AnalysisResult :=
  { version := 1
    overallSummary := "s"
    groups := []
    unassignedHunkIds := ["H1"]
    nonSubstantiveHunkIds := []
    questions := [] }

/-- A state holding one hunk and a displayed analysis. -/
def busyState : AppState :=
  { sampleState with hunks := [sampleHunk], analysis := some heldAnalysis }

theorem runAnalysis_failure_frame_witness :
    (anaDone (busyState.anaRequestId + 1) (Except.error "codex unavailable")
        (runAnalysisStart false busyState).1).hunks = busyState.hunks ∧
    (anaDone (busyState.anaRequestId + 1) (Except.error "codex unavailable")
        (runAnalysisStart false busyState).1).analysis = busyState.analysis ∧
    (anaDone (busyState.anaRequestId + 1) (Except.error "codex unavailable")
        (runAnalysisStart false busyState).1).selectedPr = busyState.selectedPr ∧
    (anaDone (busyState.anaRequestId + 1) (Except.error "codex unavailable")
        (runAnalysisStart false busyState).1).error = some "codex unavailable" ∧
    (anaDone (busyState.anaRequestId + 1) (Except.error "codex unavailable")
        (runAnalysisStart false busyState).1).loading = none :=
  runAnalysis_failure_frame false busyState "codex unavailable" (by simp [busyState, sampleState])

/-- A concrete intent group with a given id and hunk-id list. -/
def mkGroup (i : String) (hs : List String) : IntentGroup :=
  { id := i
    title := "group " ++ i
    category := "logic"
    rationale := ""
    risk := "low"
    hunkIds := hs
    reviewerChecklist := []
    suggestedTests := [] }

/-- C3: when `refineGroup(G)` succeeds with sub-groups `S` and `G`'s id
occurs exactly once in the previous group sequence, the updater replaces
`G` in its original position by the elements of `S`, keeps every other
group in order, and leaves the summary, the unassigned and
non-substantive hunk-id lists and the questions untouched. -/
theorem refineGroup_splices_in_place (prev : AnalysisResult) (G : IntentGroup)
    (res : RefineResponse) (l₁ l₂ : List IntentGroup)
    (hsplit : prev.groups = l₁ ++ G :: l₂)
    (h₁ : ∀ g ∈ l₁, g.id ≠ G.id) (h₂ : ∀ g ∈ l₂, g.id ≠ G.id) :
    refineApply G res (some prev) =
      some { version := prev.version
             overallSummary := prev.overallSummary
             groups := l₁ ++ res.subGroups ++ l₂
             unassignedHunkIds := prev.unassignedHunkIds
             nonSubstantiveHunkIds := prev.nonSubstantiveHunkIds
             questions := prev.questions } := by
  simp only [refineApply, hsplit, spliceGroups_append]
  have hG : spliceGroups G.id res.subGroups (G :: l₂) = res.subGroups ++ l₂ := by
    simp [spliceGroups, spliceGroups_of_no_match G.id res.subGroups l₂ h₂]
  rw [hG, spliceGroups_of_no_match G.id res.subGroups l₁ h₁]
  simp [List.append_assoc]

theorem refineGroup_splices_in_place_witness :
    refineApply (mkGroup "G2" ["H2", "H3"])
        ⟨[mkGroup "G2a" ["H2"], mkGroup "G2b" ["H3"]], "log", false⟩
        (some { version := 1
                overallSummary := "sum"
                groups := [mkGroup "G1" ["H1"], mkGroup "G2" ["H2", "H3"],
                           mkGroup "G3" ["H4"]]
                unassignedHunkIds := ["H5"]
                nonSubstantiveHunkIds := ["H4"]
                questions := ["q"] }) =
      some { version := 1
             overallSummary := "sum"
             groups := [mkGroup "G1" ["H1"], mkGroup "G2a" ["H2"],
                        mkGroup "G2b" ["H3"], mkGroup "G3" ["H4"]]
             unassignedHunkIds := ["H5"]
             nonSubstantiveHunkIds := ["H4"]
             questions := ["q"] } := by
  have h := refineGroup_splices_in_place
    { version := 1
      overallSummary := "sum"
      groups := [mkGroup "G1" ["H1"], mkGroup "G2" ["H2", "H3"], mkGroup "G3" ["H4"]]
      unassignedHunkIds := ["H5"]
      nonSubstantiveHunkIds := ["H4"]
      questions := ["q"] }
    (mkGroup "G2" ["H2", "H3"])
    ⟨[mkGroup "G2a" ["H2"], mkGroup "G2b" ["H3"]], "log", false⟩
    [mkGroup "G1" ["H1"]] [mkGroup "G3" ["H4"]]
    rfl (by decide) (by decide)
  simpa using h

/-! ## The monolithic App.tsx handlers

`App.tsx` keeps all state in one component; its `selectPr` discards the
analysis synchronously, and its `runAnalysis` first splits large hunks
(replacing the hunk set) and then runs the intent analysis.  Each
`await` boundary is a segment function. -/

/-- The state slice of `App.tsx` touched by `selectPr`/`runAnalysis`. -/
structure AppView where
  selectedPr : Option PrListItem
  hunks : List Hunk
  rawDiff : String
  analysis : Option AnalysisResult
  selectedGroupId : Option String
  reviewedGroups : List String
  error : Option String
  loading : Option String
deriving DecidableEq, Repr

/-- `currentHunks.filter((h) => h.lines.length > 100).length`. -/
def largeCount (hs : List Hunk) : Nat :=
  (hs.filter (fun h => 100 < h.lines.length)).length

/-- Loading message of the splitting step. -/
def splitLoadingMsg (n : Nat) : String :=
  "Splitting " ++ toString n ++ " large hunk(s) with Codex..."

/-- Loading message of the analysis step in App.tsx. -/
def runningMsg : String := "Running intent analysis with Codex... (this may take a minute)"

/-- Error message recorded when `split_large_hunks` rejects. -/
def splitFailMsg (e : String) : String :=
  "Hunk splitting failed (continuing with original hunks): " ++ e

/-- Backend invocations issued by `App.tsx.runAnalysis`, each carrying
the serialized hunk set it is given. -/
inductive AppCall
  | splitCall (hunks : List Hunk)
  | analyzeCall (hunks : List Hunk)
deriving DecidableEq, Repr

/-- Synchronous prefix of `App.tsx.selectPr`: clears error, selects the
PR, discards the analysis and the group selection, sets loading. -/
def selectPrStartApp (pr : PrListItem) (s : AppView) : AppView :=
  { s with
    error := none
    selectedPr := some pr
    analysis := none
    selectedGroupId := none
    reviewedGroups := []
    loading := some fetchingDiffMsg }

/-- Resolution of `App.tsx.selectPr`: on success the raw diff and the
parsed hunks are applied; on rejection the error is recorded and the
hunks and raw diff cleared; `finally` clears loading. -/
def selectPrDoneApp (out : Except String (String × List Hunk)) (s : AppView) : AppView :=
  match out with
  | .ok (diff, hs) => { s with rawDiff := diff, hunks := hs, loading := none }
  | .error e => { s with error := some e, hunks := [], rawDiff := "", loading := none }

/-- What `App.tsx.runAnalysis` does after its synchronous prefix. -/
inductive RunPhase
  | stopped
  | toAnalyze (current : List Hunk)
  | toSplit (orig : List Hunk)
deriving DecidableEq, Repr

/-- Synchronous prefix of `App.tsx.runAnalysis`: clears the error, fails
early on an empty hunk list, and otherwise either issues the
`split_large_hunks` call (when some hunk exceeds 100 lines) or proceeds
directly to the analysis step. -/
def runAnalysisStartApp (s : AppView) : AppView × RunPhase :=
  let s1 := { s with error := none }
  if s.hunks = [] then ({ s1 with error := some emptyInputMsg }, .stopped)
  else if 0 < largeCount s.hunks then
    ({ s1 with loading := some (splitLoadingMsg (largeCount s.hunks)) }, .toSplit s.hunks)
  else (s1, .toAnalyze s.hunks)

/-- Resolution of the `split_large_hunks` call: on success the hunk set
is replaced (`setHunks(currentHunks)`) and the split hunks become
current; on rejection the failure is recorded as an error and the
original hunks stay current.  Returns the state and the current hunks. -/
def splitDoneApp (orig : List Hunk) (out : Except String (List Hunk)) (s : AppView) :
    AppView × List Hunk :=
  match out with
  | .ok hs => ({ s with hunks := hs }, hs)
  | .error e => ({ s with error := some (splitFailMsg e) }, orig)

/-- Start of the analysis step: sets the loading message while the
`analyze_intents_with_codex` call is in flight. -/
def analyzeStartApp (s : AppView) : AppView :=
  { s with loading := some runningMsg }

/-- Resolution of the analysis call: on success the result is applied
and the group selection reset; on rejection the error is recorded;
`finally` clears loading. -/
def analyzeDoneApp (out : Except String AnalysisResult) (s : AppView) : AppView :=
  match out with
  | .ok r => { s with analysis := some r, selectedGroupId := none, loading := none }
  | .error e => { s with error := some e, loading := none }

/-- The whole of `App.tsx.runAnalysis`, with the outcomes of the two
backend calls supplied as oracles; returns the final state and the list
of backend calls issued, in order. -/
def runAnalysisApp (s : AppView) (splitOut : Except String (List Hunk))
    (anaOut : Except String AnalysisResult) : AppView × List AppCall :=
  match runAnalysisStartApp s with
  | (s1, .stopped) => (s1, [])
  | (s1, .toAnalyze current) =>
      (analyzeDoneApp anaOut (analyzeStartApp s1), [AppCall.analyzeCall current])
  | (s1, .toSplit orig) =>
      let sc := splitDoneApp orig splitOut s1
      (analyzeDoneApp anaOut (analyzeStartApp sc.1),
        [AppCall.splitCall orig, AppCall.analyzeCall sc.2])

theorem largeCount_pos_iff (hs : List Hunk) :
    0 < largeCount hs ↔ ∃ h ∈ hs, 100 < h.lines.length := by
  rw [largeCount, List.length_pos, Ne, List.filter_eq_nil_iff]
  push_neg
  simp

/-- A context diff line. -/
def ctxLine : DiffLine :=
  { kind := .context, oldLine := some 1, newLine := some 1, text := "x" }

/-- A hunk of 101 lines (strictly more than the 100-line threshold). -/
def bigHunk : Hunk :=
  { id := "H1"
    filePath := "src/a.ts"
    header := "@@ -1,101 +1,101 @@"
    oldStart := 1
    oldLines := 101
    newStart := 1
    newLines := 101
    lines := List.replicate 101 ctxLine }

/-- First child of splitting `bigHunk`. -/
def splitHunkA : Hunk :=
  { bigHunk with id := "H1.1", lines := List.replicate 50 ctxLine }

/-- Second child of splitting `bigHunk`. -/
def splitHunkB : Hunk :=
  { bigHunk with id := "H1.2", lines := List.replicate 51 ctxLine }

/-- An App.tsx state that already displays an analysis derived from one
oversized hunk (reachable: the first run's splitting call rejects —
caught, analysis proceeds on the original hunks and succeeds — and the
user re-runs the analysis). -/
def bigState : AppView :=
  { selectedPr := some samplePr
    hunks := [bigHunk]
    rawDiff := ""
    analysis := some heldAnalysis
    selectedGroupId := none
    reviewedGroups := []
    error := none
    loading := none }

/-- C8: `split_large_hunks` is invoked exactly when some current hunk has
strictly more than 100 lines, and when that call rejects the failure is
recorded as an error while the analysis call still receives the
original, unsplit hunk set. -/
theorem split_iff_large_and_continue_on_failure (s : AppView)
    (splitOut : Except String (List Hunk)) (anaOut : Except String AnalysisResult)
    (e : String) (orig : List Hunk) (s' : AppView) :
    (AppCall.splitCall s.hunks ∈ (runAnalysisApp s splitOut anaOut).2 ↔
      ∃ h ∈ s.hunks, 100 < h.lines.length) ∧
    ((∃ h ∈ s.hunks, 100 < h.lines.length) →
      (runAnalysisApp s (Except.error e) anaOut).2 =
        [AppCall.splitCall s.hunks, AppCall.analyzeCall s.hunks]) ∧
    splitDoneApp orig (Except.error e) s' =
      ({ s' with error := some (splitFailMsg e) }, orig) := by
  refine ⟨?_, ?_, rfl⟩
  · by_cases hemp : s.hunks = []
    · simp [runAnalysisApp, runAnalysisStartApp, hemp]
    · by_cases hl : 0 < largeCount s.hunks
      · have hex := (largeCount_pos_iff s.hunks).mp hl
        simp [runAnalysisApp, runAnalysisStartApp, hemp, hl, hex]
      · rw [largeCount_pos_iff] at hl
        simp [runAnalysisApp, runAnalysisStartApp, hemp, hl, largeCount_pos_iff]
  · intro hex
    have hl : 0 < largeCount s.hunks := (largeCount_pos_iff s.hunks).mpr hex
    have hemp : s.hunks ≠ [] := by
      rcases hex with ⟨h, hmem, _⟩
      exact List.ne_nil_of_mem hmem
    simp [runAnalysisApp, runAnalysisStartApp, hemp, hl, splitDoneApp]

theorem split_iff_large_and_continue_on_failure_witness :
    AppCall.splitCall bigState.hunks ∈
      (runAnalysisApp bigState (Except.error "boom") (Except.ok heldAnalysis)).2 ∧
    (runAnalysisApp bigState (Except.error "boom") (Except.ok heldAnalysis)).2 =
      [AppCall.splitCall bigState.hunks, AppCall.analyzeCall bigState.hunks] ∧
    splitDoneApp [bigHunk] (Except.error "boom") bigState =
      ({ bigState with error := some (splitFailMsg "boom") }, [bigHunk]) := by
  have h := split_iff_large_and_continue_on_failure bigState (Except.error "boom")
    (Except.ok heldAnalysis) "boom" [bigHunk] bigState
  have hex : ∃ hk ∈ bigState.hunks, 100 < hk.lines.length :=
    ⟨bigHunk, by simp [bigState], by simp [bigHunk]⟩
  exact ⟨h.1.mpr hex, h.2.1 hex, h.2.2⟩

/-- C4 counterexample: in `App.tsx.runAnalysis`, when the splitting step
succeeds, the new (split) hunk set is applied while the previously held
analysis is still displayed — the state during the subsequent analysis
call pairs the old `AnalysisResult` with a replaced hunk set, so the
held analysis is not discarded when hunks are replaced by splitting. -/
theorem analysis_survives_split_counterexample :
    (analyzeStartApp (splitDoneApp bigState.hunks
        (Except.ok [splitHunkA, splitHunkB]) (runAnalysisStartApp bigState).1).1).analysis =
      some heldAnalysis ∧
    (analyzeStartApp (splitDoneApp bigState.hunks
        (Except.ok [splitHunkA, splitHunkB]) (runAnalysisStartApp bigState).1).1).hunks =
      [splitHunkA, splitHunkB] ∧
    [splitHunkA, splitHunkB] ≠ bigState.hunks := by
  refine ⟨?_, ?_, ?_⟩ <;>
    simp [analyzeStartApp, splitDoneApp, runAnalysisStartApp, largeCount,
      bigState, bigHunk, splitHunkA, splitHunkB]

/-- C4 amended: selecting a new PR discards the held analysis
synchronously, before the new hunks arrive, and the fetch resolution
leaves it discarded; the hunk-splitting step of `runAnalysis`, by
contrast, replaces the hunk set without touching the held analysis. -/
theorem analysis_discarded_on_selectPr_not_on_split (s : AppView) (pr : PrListItem)
    (out : Except String (String × List Hunk)) (orig : List Hunk)
    (so : Except String (List Hunk)) (s' : AppView) :
    (selectPrStartApp pr s).analysis = none ∧
    (selectPrDoneApp out (selectPrStartApp pr s)).analysis = none ∧
    ((splitDoneApp orig so s').1).analysis = s'.analysis := by
  refine ⟨rfl, ?_, ?_⟩
  · cases out with
    | ok p =>
        cases p
        simp [selectPrDoneApp, selectPrStartApp]
    | error e => simp [selectPrDoneApp, selectPrStartApp]
  · cases so <;> simp [splitDoneApp]

/-! ## Group filtering (useGroupFiltering.displayedHunks) -/

/-- `UNASSIGNED_GROUP_ID` from src/constants.ts. -/
def unassignedGroupId : String := "__unassigned"

/-- The `selectedGroup` memo: the group of the current analysis whose id
is the selected one, if any. -/
def selectedGroupOf (analysis : Option AnalysisResult) (gid : Option String) :
    Option IntentGroup :=
  match analysis, gid with
  | some a, some g => a.groups.find? (fun gr => gr.id = g)
  | _, _ => none

/-- The `displayedHunks` memo of `useGroupFiltering`: the unassigned
pseudo-group filter wins when selected and an analysis is present,
otherwise the selected group's filter, otherwise the full list. -/
def displayedHunks (hunks : List Hunk) (analysis : Option AnalysisResult)
    (gid : Option String) : List Hunk :=
  match analysis, gid with
  | some a, some g =>
      if g = unassignedGroupId then
        hunks.filter (fun h => a.unassignedHunkIds.contains h.id)
      else
        match a.groups.find? (fun gr => gr.id = g) with
        | some gr => hunks.filter (fun h => gr.hunkIds.contains h.id)
        | none => hunks
  | _, _ => hunks

/-- C9: `displayedHunks` is always a sublist of the full hunk list (so
it preserves order and never shows a hunk outside the current set), and
it is exactly the filter by the unassigned ids when the unassigned
pseudo-group is selected, exactly the filter by the selected group's
hunk ids when a group is selected, and the full list when no group is
selected. -/
theorem displayedHunks_cases (hunks : List Hunk) (oa : Option AnalysisResult)
    (og : Option String) :
    List.Sublist (displayedHunks hunks oa og) hunks ∧
    (∀ a, oa = some a → og = some unassignedGroupId →
      displayedHunks hunks oa og =
        hunks.filter (fun h => a.unassignedHunkIds.contains h.id)) ∧
    (∀ a g gr, oa = some a → og = some g → g ≠ unassignedGroupId →
      a.groups.find? (fun x => x.id = g) = some gr →
      displayedHunks hunks oa og =
        hunks.filter (fun h => gr.hunkIds.contains h.id)) ∧
    (∀ a g, oa = some a → og = some g → g ≠ unassignedGroupId →
      a.groups.find? (fun x => x.id = g) = none →
      displayedHunks hunks oa og = hunks) ∧
    (oa = none ∨ og = none → displayedHunks hunks oa og = hunks) := by
  refine ⟨?_, ?_, ?_, ?_, ?_⟩
  · match oa, og with
    | some a, some g =>
        simp only [displayedHunks]
        split
        · exact List.filter_sublist hunks
        · split
          · exact List.filter_sublist hunks
          · exact List.Sublist.refl hunks
    | some a, none => exact List.Sublist.refl hunks
    | none, some g => exact List.Sublist.refl hunks
    | none, none => exact List.Sublist.refl hunks
  · rintro a rfl rfl
    simp [displayedHunks]
  · rintro a g gr rfl rfl hne hf
    simp [displayedHunks, hne, hf]
  · rintro a g rfl rfl hne hf
    simp [displayedHunks, hne, hf]
  · rintro (rfl | rfl)
    · rfl
    · cases oa <;> rfl

theorem displayedHunks_cases_witness :
    List.Sublist (displayedHunks [sampleHunk] (some heldAnalysis) (some unassignedGroupId))
      [sampleHunk] ∧
    displayedHunks [sampleHunk] (some heldAnalysis) (some unassignedGroupId) =
      List.filter (fun h => heldAnalysis.unassignedHunkIds.contains h.id) [sampleHunk] :=
  ⟨(displayedHunks_cases [sampleHunk] (some heldAnalysis) (some unassignedGroupId)).1,
   (displayedHunks_cases [sampleHunk] (some heldAnalysis)
      (some unassignedGroupId)).2.1 heldAnalysis rfl rfl⟩

/-! ## Auto-run guard (useAutoRunAnalysis) -/

/-- The dependencies the auto-run effect observes on each render. -/
structure AutoInputs where
  hunks : List Hunk
  analysis : Option AnalysisResult
  loading : Option String
  hasSettings : Bool
deriving DecidableEq, Repr

/-- The effect's trigger condition:
`hunks.length > 0 && !analysis && !loading && hasSettings`. -/
def autoCond (i : AutoInputs) : Bool :=
  decide (i.hunks ≠ []) && i.analysis.isNone && i.loading.isNone && i.hasSettings

/-- One run of the effect: fires `runAnalysis` (second component) and
latches `triggered.current` exactly when the condition holds and the
latch is clear. -/
def autoStep (triggered : Bool) (i : AutoInputs) : Bool × Bool :=
  if autoCond i && !triggered then (true, true) else (triggered, false)

/-- A render (effect run) or a `resetAutoRun` call. -/
inductive AutoEvent
  | render (i : AutoInputs)
  | reset
deriving DecidableEq, Repr

/-- The inputs at which the effect fires `runAnalysis`, over a sequence
of renders and resets, starting from a given latch value. -/
def autoRunFires : Bool → List AutoEvent → List AutoInputs
  | _, [] => []
  | t, .render i :: es =>
      (if (autoStep t i).2 then [i] else []) ++ autoRunFires (autoStep t i).1 es
  | _, .reset :: es => autoRunFires false es

/-- Number of `resetAutoRun` calls in an event sequence. -/
def resetCount : List AutoEvent → Nat
  | [] => 0
  | .reset :: es => resetCount es + 1
  | .render _ :: es => resetCount es

/-- C10: over any sequence of renders and resets, the auto-run effect
fires `runAnalysis` at most once per reset boundary — at most
`1 + resetCount` times from a clear latch and at most `resetCount` times
from a latched state — and every firing happens at a render whose inputs
satisfy the trigger condition (non-empty hunks, no analysis, not
loading, settings present). -/
theorem autoRun_at_most_once_between_resets (t : Bool) (evs : List AutoEvent) :
    (autoRunFires t evs).length ≤ (if t then 0 else 1) + resetCount evs ∧
    (autoRunFires t evs).all autoCond = true := by
  induction evs generalizing t with
  | nil => simp [autoRunFires]
  | cons ev es ih =>
      cases ev with
      | render i =>
          cases hA : autoCond i with
          | false =>
              have hstep : autoStep t i = (t, false) := by
                simp [autoStep, hA]
              constructor
              · simpa [autoRunFires, hstep, resetCount] using (ih t).1
              · simpa [autoRunFires, hstep] using (ih t).2
          | true =>
              cases t with
              | true =>
                  have hstep : autoStep true i = (true, false) := by
                    simp [autoStep]
                  constructor
                  · simpa [autoRunFires, hstep, resetCount] using (ih true).1
                  · simpa [autoRunFires, hstep] using (ih true).2
              | false =>
                  have hstep : autoStep false i = (true, true) := by
                    simp [autoStep, hA]
                  have h1 := (ih true).1
                  simp only [if_true, Nat.zero_add] at h1
                  constructor
                  · simp only [autoRunFires, hstep, resetCount, if_true,
                      List.singleton_append, List.length_cons, Bool.false_eq_true,
                      if_false]
                    omega
                  · simp [autoRunFires, hstep, hA, (ih true).2]
      | reset =>
          simp only [autoRunFires, resetCount]
          constructor
          · have := (ih false).1
            simp only [if_neg Bool.false_ne_true] at this
            calc (autoRunFires false es).length ≤ 1 + resetCount es := this
              _ ≤ (if t then 0 else 1) + (resetCount es + 1) := by
                  cases t with
                  | false => simp [Nat.add_comm]
                  | true => simp [Nat.add_comm]
          · exact (ih false).2

/-! ## Coverage-and-uniqueness validation (analysis orchestrator)

The orchestrator behind the `analyze_intents_with_codex` command lives
in the Rust backend, which is not part of the frontend sources; its
validation gate is modelled from the spec. -/

/-- Modelled from the spec: the failure taxonomy of the analysis
orchestrator (§7); the Rust implementation is not under src/. -/
inductive AnalysisError
  | emptyInput
  | engineError (msg : String)
  | schemaError (msg : String)
  | validationError (msg : String)
deriving DecidableEq, Repr

/-- Modelled from the spec: the multiset union of every group's
`hunkIds` plus `unassignedHunkIds` (§3, coverage-and-uniqueness); the
Rust implementation is not under src/. -/
def allAssignedIds (r : AnalysisResult) : List String :=
  (r.groups.map (fun g => g.hunkIds)).flatten ++ r.unassignedHunkIds

/-- Modelled from the spec: the strict coverage validator — every input
hunk id appears exactly once among the groups plus unassigned, and no
foreign id appears (§4.2); the Rust implementation is not under src/. -/
def validateCoverage (inputIds : List String) (r : AnalysisResult) : Bool :=
  inputIds.all (fun i => (allAssignedIds r).count i == 1) &&
  (allAssignedIds r).all (fun a => inputIds.contains a)

/-- Modelled from the spec: the post-decode gate of `analyze` — a
decoded result is returned only if it passes the coverage validator,
otherwise the hard `ValidationError` is raised (§4.2); the Rust
implementation is not under src/. -/
def analyzeValidate (hunks : List Hunk) (decoded : AnalysisResult) :
    Except AnalysisError AnalysisResult :=
  if validateCoverage (hunks.map Hunk.id) decoded then .ok decoded
  else .error (.validationError "coverage-and-uniqueness violated")

theorem validateCoverage_iff_perm (ids : List String) (r : AnalysisResult)
    (hnd : ids.Nodup) :
    validateCoverage ids r = true ↔ (allAssignedIds r).Perm ids := by
  simp only [validateCoverage, Bool.and_eq_true, List.all_eq_true, beq_iff_eq,
    List.elem_iff]
  constructor
  · rintro ⟨h1, h2⟩
    rw [List.perm_iff_count]
    intro a
    by_cases ha : a ∈ ids
    · rw [h1 a ha, List.count_eq_one_of_mem hnd ha]
    · rw [List.count_eq_zero.mpr ha, List.count_eq_zero.mpr (fun hm => ha (h2 a hm))]
  · intro hp
    refine ⟨fun i hi => ?_, fun a ha => ?_⟩
    · rw [List.perm_iff_count.mp hp i, List.count_eq_one_of_mem hnd hi]
    · exact hp.subset ha

/-- C5: `analyze` returns a decoded result only when the multiset union
of all groups' hunk ids plus the unassigned ids is exactly the input
hunk-id set (each id once); any decoded result violating coverage or
uniqueness is rejected with the hard `ValidationError` instead of being
returned. -/
theorem analyze_coverage_gate (hunks : List Hunk) (decoded : AnalysisResult)
    (hnd : (hunks.map Hunk.id).Nodup) :
    (∀ r, analyzeValidate hunks decoded = .ok r →
      r = decoded ∧ (allAssignedIds r).Perm (hunks.map Hunk.id)) ∧
    (¬ (allAssignedIds decoded).Perm (hunks.map Hunk.id) →
      analyzeValidate hunks decoded =
        .error (.validationError "coverage-and-uniqueness violated")) := by
  constructor
  · intro r hr
    unfold analyzeValidate at hr
    by_cases hv : validateCoverage (hunks.map Hunk.id) decoded = true
    · rw [if_pos hv] at hr
      cases hr
      exact ⟨rfl, (validateCoverage_iff_perm _ _ hnd).mp hv⟩
    · rw [if_neg hv] at hr
      cases hr
  · intro hnp
    unfold analyzeValidate
    rw [if_neg]
    intro hv
    exact hnp ((validateCoverage_iff_perm _ _ hnd).mp hv)

/-- An `AnalysisResult` that drops the input hunk id entirely. -/
def badAnalysis : AnalysisResult :=
  { version := 1
    overallSummary := ""
    groups := []
    unassignedHunkIds := []
    nonSubstantiveHunkIds := []
    questions := [] }

theorem analyze_coverage_gate_witness :
    (heldAnalysis = heldAnalysis ∧
      (allAssignedIds heldAnalysis).Perm ([sampleHunk].map Hunk.id)) ∧
    analyzeValidate [sampleHunk] badAnalysis =
      .error (.validationError "coverage-and-uniqueness violated") :=
  ⟨(analyze_coverage_gate [sampleHunk] heldAnalysis (by decide)).1 heldAnalysis
      (by decide),
   (analyze_coverage_gate [sampleHunk] badAnalysis (by decide)).2
      (by decide)⟩

end Prvw
